import Mathlib

set_option maxHeartbeats 1000000

/-!
Shallow embedding of the currency-identity codec from
`packages/sdk-core/src/converter.ts`, the token entity and algebra from
`packages/sdk-core/src/token.ts`, the error classes from
`packages/sdk-core/src/errors.ts`, and the wallet engine operations from
`packages/wallet/src/wallet.ts`, together with executable models of the
JavaScript built-ins the code relies on (`encodeURIComponent`,
`decodeURIComponent`, and the anchored splitting regular expression used
by `unzipDexShareName`).
-/

/-! ## JavaScript built-ins: percent-encoding -/

/-- Uppercase hexadecimal digit characters, as produced by
`encodeURIComponent` percent-escapes. -/
def hexDigit (k : Nat) : Char :=
  if k < 10 then Char.ofNat (48 + k) else Char.ofNat (55 + k)

/-- Hexadecimal digit value of a character; accepts upper- and lower-case
digits exactly as `decodeURIComponent` does. -/
def hexVal (c : Char) : Option Nat :=
  if 48 ≤ c.toNat ∧ c.toNat ≤ 57 then some (c.toNat - 48)
  else if 65 ≤ c.toNat ∧ c.toNat ≤ 70 then some (c.toNat - 55)
  else if 97 ≤ c.toNat ∧ c.toNat ≤ 102 then some (c.toNat - 87)
  else none

/-- The characters `encodeURIComponent` leaves unescaped: ASCII letters,
digits, and the marks `- _ . ! ~ * ' ( )`. -/
def unreservedURI (c : Char) : Bool :=
  (65 ≤ c.toNat && c.toNat ≤ 90) || (97 ≤ c.toNat && c.toNat ≤ 122) ||
    (48 ≤ c.toNat && c.toNat ≤ 57) ||
    ['-', '_', '.', '!', '~', '*', Char.ofNat 39, '(', ')'].contains c

/-- UTF-8 byte sequence of a Unicode scalar value, as used by the
ECMA-262 `Encode` abstract operation underlying `encodeURIComponent`. -/
def utf8Bytes (n : Nat) : List Nat :=
  if n < 128 then [n]
  else if n < 2048 then [192 + n / 64, 128 + n % 64]
  else if n < 65536 then [224 + n / 4096, 128 + (n / 64) % 64, 128 + n % 64]
  else [240 + n / 262144, 128 + (n / 4096) % 64, 128 + (n / 64) % 64, 128 + n % 64]

/-- Percent-escape of one byte: a percent sign followed by two uppercase
hexadecimal digits. -/
def pctEncodeByte (b : Nat) : List Char :=
  ['%', hexDigit (b / 16), hexDigit (b % 16)]

/-- Encoding of a single character by `encodeURIComponent`: unreserved
characters pass through, everything else becomes percent-escaped UTF-8. -/
def encodeChar (c : Char) : List Char :=
  if unreservedURI c then [c] else (utf8Bytes c.toNat).flatMap pctEncodeByte

/-- Model of the JavaScript `encodeURIComponent` built-in. -/
def encodeURIComponent (s : String) : String :=
  String.mk (s.data.flatMap encodeChar)

/-- First phase of `decodeURIComponent`: scan the string left to right,
turning each `%XY` escape into the byte it denotes (`Sum.inr`) and passing
every other character through (`Sum.inl`); a percent sign not followed by
two hexadecimal digits is a `URIError`, modelled by `none`. -/
def pctTokens : List Char → Option (List (Char ⊕ Nat))
  | [] => some []
  | c :: rest =>
    if c = '%' then
      match rest with
      | h1 :: h2 :: rest2 =>
        match hexVal h1, hexVal h2 with
        | some a, some b => (pctTokens rest2).map (fun ts => .inr (16 * a + b) :: ts)
        | _, _ => none
      | _ => none
    else (pctTokens rest).map (fun ts => .inl c :: ts)

/-- Number of continuation bytes demanded by a UTF-8 lead byte; `none` for
a byte that cannot begin a sequence (a bare continuation byte, an overlong
C0 or C1 lead, or a lead above F4). -/
def utf8Len (b0 : Nat) : Option Nat :=
  if b0 < 128 then some 0
  else if b0 < 194 then none
  else if b0 < 224 then some 1
  else if b0 < 240 then some 2
  else if b0 < 245 then some 3
  else none

/-- Payload bits carried by a UTF-8 lead byte. -/
def utf8Base (b0 : Nat) : Nat :=
  if b0 < 128 then b0
  else if b0 < 224 then b0 - 192
  else if b0 < 240 then b0 - 224
  else b0 - 240

/-- Scalar value assembled from a lead byte and its continuation bytes. -/
def utf8Scalar (b0 : Nat) (cs : List Nat) : Nat :=
  cs.foldl (fun acc b => acc * 64 + (b - 128)) (utf8Base b0)

/-- The first `k` tokens, all of which must be escaped continuation bytes
(in the range 128-191); `none` if any is a plain character or out of range. -/
def contBytes : Nat → List (Char ⊕ Nat) → Option (List Nat)
  | 0, _ => some []
  | k + 1, .inr b :: rest =>
    if 128 ≤ b ∧ b < 192 then (contBytes k rest).map (fun cs => b :: cs) else none
  | _ + 1, _ => none

/-- Second phase of `decodeURIComponent`: plain characters pass through,
each escaped lead byte must be followed by the demanded number of escaped
continuation bytes, which together are decoded to one scalar value.
The model accepts every sequence whose shape is well-formed; this is a
superset of the exact ECMA-262 validation (which also rejects surrogate
and out-of-range scalars), sufficient because the claims only decode
encoder output, which is always well-formed. -/
def utf8Decode : List (Char ⊕ Nat) → Option (List Char)
  | [] => some []
  | .inl c :: rest => (utf8Decode rest).map (fun l => c :: l)
  | .inr b0 :: rest =>
    match utf8Len b0 with
    | none => none
    | some k =>
      match contBytes k rest with
      | none => none
      | some cs => (utf8Decode (rest.drop k)).map (fun l => Char.ofNat (utf8Scalar b0 cs) :: l)
termination_by l => l.length
decreasing_by
  all_goals simp
  omega

/-- Model of the ECMA-262 `decodeURIComponent` algorithm on a character
list: both phases composed. -/
def decodeList (l : List Char) : Option (List Char) :=
  (pctTokens l).bind utf8Decode

/-- Model of the JavaScript `decodeURIComponent` built-in. -/
def decodeURIComponent (s : String) : Option String :=
  (decodeList s.data).map String.mk

/-! ## Decimal numbers

The `FixedPointNumber` source file is referenced by the repository
(`@setheum.js/sdk-core`) but is not part of the snapshot, so the type is
modelled from the spec. -/

/-- Modelled from the spec: the missing `FixedPointNumber` source.
Spec section 3 "Decimal": a fixed-point number with an integer mantissa and a
scale (number of fractional digits); section 4.3: exact integer arithmetic,
subtraction may go negative, `max`, comparison, a canonical `ZERO`, and
`fromInner(raw, decimals)` interpreting a raw ledger integer at the token's
declared scale. -/
structure FixedPointNumber where
  mantissa : Int
  scale : Nat
deriving DecidableEq, Repr

/-- The canonical zero Decimal. -/
def FixedPointNumber.ZERO : FixedPointNumber := ⟨0, 0⟩

/-- Modelled from the spec (section 3 "Decimal"): `fromInner(raw, decimals)`
interprets `raw` as an integer already scaled by `decimals`. -/
def FixedPointNumber.fromInner (raw : Int) (decimals : Nat) : FixedPointNumber :=
  ⟨raw, decimals⟩

/-- Mantissa of a Decimal re-expressed at a scale at least its own. -/
def FixedPointNumber.alignTo (s : Nat) (x : FixedPointNumber) : Int :=
  x.mantissa * (10 : Int) ^ (s - x.scale)

/-- Modelled from the spec (section 4.3): exact subtraction, aligning both
operands to the larger scale; may go negative. -/
def FixedPointNumber.sub (x y : FixedPointNumber) : FixedPointNumber :=
  ⟨FixedPointNumber.alignTo (Nat.max x.scale y.scale) x -
    FixedPointNumber.alignTo (Nat.max x.scale y.scale) y, Nat.max x.scale y.scale⟩

/-- Exact comparison of two Decimals, via alignment to a common scale. -/
def FixedPointNumber.ltb (x y : FixedPointNumber) : Bool :=
  FixedPointNumber.alignTo (Nat.max x.scale y.scale) x <
    FixedPointNumber.alignTo (Nat.max x.scale y.scale) y

/-- Modelled from the spec (section 4.3): the larger of two Decimals. -/
def FixedPointNumber.max (x y : FixedPointNumber) : FixedPointNumber :=
  if FixedPointNumber.ltb x y then y else x

/-- Whether a Decimal denotes a negative value. -/
def FixedPointNumber.isNeg (x : FixedPointNumber) : Bool :=
  x.mantissa < 0

/-! ## Token entity (`packages/sdk-core/src/token.ts`) -/

/-- The `TokenType` tag set referenced from `./types`: the code uses
`TokenType.BASIC`, `TokenType.DEX_SHARE` and `TokenType.ERC20`. -/
inductive TokenType where
  | BASIC
  | DEX_SHARE
  | ERC20
deriving DecidableEq, Repr

/-- The `Configs` interface of `token.ts` lines 16-25 (the unused
`detail` field is omitted); every field is optional. -/
structure Configs where
  display : Option String := none
  decimals : Option Nat := none
  decimal : Option Nat := none
  type : Option TokenType := none
  chain : Option String := none
  symbol : Option String := none
  ed : Option FixedPointNumber := none
deriving DecidableEq, Repr

/-- The `Token` entity, fields as in `token.ts` lines 27-36 (the optional
`pair` field is never set by the constructor and is omitted). -/
structure Token where
  name : String
  symbol : String
  decimals : Nat
  decimal : Nat
  ed : FixedPointNumber
  chain : Option String
  type : TokenType
  display : String
deriving DecidableEq, Repr

/-- JavaScript `a || b` over an optional number: `undefined` and `0` are
falsy, any other number is returned unchanged. -/
def jsOrNat (x : Option Nat) (d : Nat) : Nat :=
  match x with
  | some v => if v = 0 then d else v
  | none => d

/-- JavaScript `a || b` over an optional string: `undefined` and the empty
string are falsy. -/
def jsOrStr (x : Option String) (d : String) : String :=
  match x with
  | some v => if v = "" then d else v
  | none => d

/-- The `Token` constructor, `token.ts` lines 38-47 (also reachable as the
static `Token.create`): `decimals` is `configs?.decimals || configs?.decimal
|| 18` (a truthiness chain, so an explicit `0` falls through), `ed` defaults
to `FixedPointNumber.ZERO` (a `FixedPointNumber` object is always truthy),
`type` defaults to `TokenType.BASIC`, and `symbol` and `display` default to
`name` (an empty string is falsy and also falls through). -/
def Token.create (name : String) (configs : Option Configs) : Token :=
  let cfg := configs.getD {}
  { name := name
    decimals := jsOrNat cfg.decimals (jsOrNat cfg.decimal 18)
    decimal := jsOrNat cfg.decimals (jsOrNat cfg.decimal 18)
    ed := cfg.ed.getD FixedPointNumber.ZERO
    chain := cfg.chain
    type := cfg.type.getD TokenType.BASIC
    symbol := jsOrStr cfg.symbol name
    display := jsOrStr cfg.display name }

/-! ## Currency identities handed to the converter -/

/-- The chain-side `CurrencyId` tagged value consumed by
`forceToCurrencyName`: the branches the code inspects are `isToken`,
`isDexShare` and `isErc20`. -/
inductive CurrencyId where
  | token (symbol : String)
  | dexShare (c0 c1 : CurrencyId)
  | erc20 (address : String)
deriving DecidableEq, Repr

/-- The `MaybeCurrency` union accepted by `forceToCurrencyName`: a plain
name string, a `[string, string]` pair, a `Token`, or a chain `CurrencyId`.
`nullVal` models a `null`-ish value smuggled through the untyped JavaScript
boundary, on which every branch test of the function throws. -/
inductive MaybeCurrency where
  | str (s : String)
  | pair (a b : String)
  | token (t : Token)
  | currencyId (c : CurrencyId)
  | nullVal
deriving DecidableEq, Repr

/-! ## Errors (`packages/sdk-core/src/errors.ts` plus the wallet's
`SDKNotReady` and JavaScript runtime errors) -/

/-- Each constructor carries the `origin` argument of the corresponding
`Error` subclass in `errors.ts` lines 18-43 (the class embeds it into its
`message`). -/
inductive SdkErr where
  /-- `NotDexShareName(origin)` from `errors.ts`. -/
  | notDexShareName (origin : String)
  /-- `ConvertToCurrencyNameFailed(origin)` from `errors.ts`; its declared
  payload type is `MaybeCurrency`. -/
  | convertToCurrencyNameFailed (origin : MaybeCurrency)
  /-- `ConvertToCurrencyIdFailed(origin)` from `errors.ts`; its declared
  payload type is `MaybeCurrency`. -/
  | convertToCurrencyIdFailed (origin : MaybeCurrency)
  /-- `CurrencyNotFound(name)` used by the wallet engine. -/
  | currencyNotFound (name : String)
  /-- `SDKNotReady(sdk)` thrown by wallet snapshot queries. -/
  | sdkNotReady (sdk : String)
  /-- A JavaScript `URIError` thrown by `decodeURIComponent`. -/
  | uriError
  /-- A JavaScript `TypeError` (property access on `undefined` or `null`). -/
  | typeError
deriving DecidableEq, Repr

/-! ## Currency codec (`packages/sdk-core/src/converter.ts`) -/

/-- Source line 26-28:
`createDexShareName(name1, name2)` returns the template literal joining the
two percent-encoded names under the `lp://` scheme. -/
def createDexShareName (name1 : String) (name2 : String) : String :=
  "lp://" ++ encodeURIComponent name1 ++ "/" ++ encodeURIComponent name2

/-- Source line 30-32: `isDexShareName(name)` is `name.startsWith('lp://')`. -/
def isDexShareName (name : String) : Bool :=
  "lp://".data.isPrefixOf name.data

/-- The anchored splitting pattern of `unzipDexShareName` after the scheme
prefix: the regular expression matches the remainder against
`([^/]*)?/([^/]*)$`, which succeeds exactly when the remainder contains a
single slash, capturing the slash-free parts before and after it. -/
def splitOnceChar : List Char → Option (List Char × List Char)
  | [] => none
  | c :: rest =>
    if c = '/' then
      if rest.contains '/' then none else some ([], rest)
    else
      match splitOnceChar rest with
      | some (a, b) => some (c :: a, b)
      | none => none

/-- Source line 37-47: `unzipDexShareName(name)` throws `NotDexShareName`
when the prefix or the anchored pattern does not match, and otherwise
percent-decodes the two captured groups. A failing `decodeURIComponent`
throws a `URIError`, modelled by `SdkErr.uriError`. -/
def unzipDexShareName (name : String) : Except SdkErr (String × String) :=
  if isDexShareName name then
    match splitOnceChar (name.data.drop 5) with
    | some (a, b) =>
      match decodeURIComponent (String.mk a), decodeURIComponent (String.mk b) with
      | some d1, some d2 => .ok (d1, d2)
      | _, _ => .error .uriError
    | none => .error (.notDexShareName name)
  else .error (.notDexShareName name)

/-- Recursion of `forceToCurrencyName` through the legs of a chain
`CurrencyId`: an `isToken` value yields its symbol text, an `isDexShare`
value re-encodes the two legs' names (`converter.ts` lines 96-103), an
`isErc20` value yields its address text. -/
def currencyIdName : CurrencyId → String
  | .token s => s
  | .dexShare c0 c1 => createDexShareName (currencyIdName c0) (currencyIdName c1)
  | .erc20 a => a

/-- Source `converter.ts` lines 88-112, `forceToCurrencyName(target)`:
a string is returned as is, an array becomes `createDexShareName` of its two
entries, a `Token` yields its `toString()` (its name), a `CurrencyId` is
resolved through `currencyIdName`; when the branch tests themselves throw
(a `null`-ish target), the catch block throws
`ConvertToCurrencyNameFailed(target)` carrying the function's own
`target`. -/
def forceToCurrencyName : MaybeCurrency → Except SdkErr String
  | .str s => .ok s
  | .pair a b => .ok (createDexShareName a b)
  | .token t => .ok t.name
  | .currencyId c => .ok (currencyIdName c)
  | .nullVal => .error (.convertToCurrencyNameFailed .nullVal)

/-! ## Token ordering and composition (`packages/sdk-core/src/token.ts`) -/

/-- Modelled from the spec: the comparator `sortTokenByName` is imported
from `./sort-token`, a file that is not part of the repository snapshot.
Spec section 4.2 "Canonical ordering" requires a deterministic total
collation over name strings, naming byte-wise collation as the reference
choice; we model it as code-point lexicographic comparison returning the
usual negative/zero/positive comparator value. -/
def sortTokenByName (a b : String) : Int :=
  if a < b then -1 else if b < a then 1 else 0

/-- The keep-before relation induced by the comparator under JavaScript
`Array.prototype.sort` semantics: `a` may stay before `b` when the
comparator is non-positive. -/
def sortTokenNameLe (a b : String) : Prop := sortTokenByName a b ≤ 0

instance : DecidableRel sortTokenNameLe := fun a b =>
  inferInstanceAs (Decidable (sortTokenByName a b ≤ 0))

/-- Source `token.ts` lines 128-134, `Token.sortTokenNames(...names)`:
copies the names and sorts them with `sortTokenByName`. JavaScript
`Array.prototype.sort` is stable, which insertion sort models. -/
def Token.sortTokenNames (names : List String) : List String :=
  List.insertionSort sortTokenNameLe names

/-- Key list of a JavaScript object built by `Object.fromEntries` over a
pair list: first occurrence order, later duplicate keys keep their first
position (their value is overwritten instead). String keys that look like
array indices would be enumerated first by JavaScript, but every use below
re-sorts the keys with a comparator that only returns 0 on identical keys,
so the enumeration order never reaches the result. -/
def jsObjectKeys (names : List String) : List String :=
  names.foldl (fun acc n => if acc.contains n then acc else acc ++ [n]) []

/-- Value stored under key `n` after `Object.fromEntries` over tokens keyed
by name: the last entry with that key wins. -/
def lastWithName (tokens : List Token) (n : String) : Option Token :=
  (tokens.filter (fun t => t.name == n)).getLast?

/-- Source `token.ts` lines 145-152, `Token.sort(...tokens)`: build
`nameMap` with `Object.fromEntries` (deduplicating by name, last entry
winning), sort the keys with `sortTokenByName`, and map each key back to
its token. -/
def Token.sort (tokens : List Token) : List Token :=
  ((jsObjectKeys (tokens.map Token.name)).insertionSort sortTokenNameLe).filterMap
    (lastWithName tokens)

/-- Value stored under key `n` of the `nameMap` of `sortCurrencies`. -/
def lastWithKey (pairs : List (String × MaybeCurrency)) (n : String) : Option MaybeCurrency :=
  ((pairs.filter (fun p => p.1 == n)).getLast?).map Prod.snd

/-- The `result.map((item) => [forceToCurrencyName(item), item])` loop of
`sortCurrencies`: builds the entry list, a conversion failure aborting the
whole call. -/
def namePairs : List MaybeCurrency → Except SdkErr (List (String × MaybeCurrency))
  | [] => .ok []
  | c :: cs =>
    match forceToCurrencyName c, namePairs cs with
    | .ok n, .ok ps => .ok ((n, c) :: ps)
    | .error e, _ => .error e
    | .ok _, .error e => .error e

/-- Source `token.ts` lines 136-143, `Token.sortCurrencies(...currencies)`:
key every currency by `forceToCurrencyName` (a conversion failure
propagates), deduplicate through `Object.fromEntries` (last entry winning),
sort the keys with `sortTokenByName` and map them back. -/
def Token.sortCurrencies (cs : List MaybeCurrency) : Except SdkErr (List MaybeCurrency) :=
  match namePairs cs with
  | .error e => .error e
  | .ok pairs =>
    .ok (((jsObjectKeys (pairs.map Prod.fst)).insertionSort sortTokenNameLe).filterMap
      (lastWithKey pairs))

/-- Source `token.ts` lines 88-100, `Token.fromTokens(token1, token2)`:
destructure the sorted pair, take the first sorted token's `decimals` and
`ed`, and build a new `Token` named by `createDexShareName` with type
`DEX_SHARE`. When sorting deduplicates the pair into a single element the
destructured `_token2` is `undefined` and reading `_token2.name` throws a
`TypeError`. -/
def Token.fromTokens (token1 token2 : Token) : Except SdkErr Token :=
  match Token.sort [token1, token2] with
  | t1s :: t2s :: _ =>
    .ok (Token.create (createDexShareName t1s.name t2s.name)
      (some { decimals := some t1s.decimals, type := some TokenType.DEX_SHARE,
              ed := some t1s.ed }))
  | _ => .error .typeError

/-! ## Structured currency objects (`converter.ts` lines 58-82)

The next lemmas are termination auxiliaries for the recursion of
`getDexShareCurrencyObject`, which recurses into the decoded halves of a
dex-share name: decoding never lengthens a string, so each half is
strictly shorter than the whole. -/

theorem pctTokens_length : ∀ l ts, pctTokens l = some ts → ts.length ≤ l.length := by
  intro l
  induction l using pctTokens.induct with
  | case1 => simp [pctTokens]
  | case2 h1 h2 rest2 a b hb ha ih =>
    intro ts hts
    simp only [pctTokens, reduceIte, ha, hb] at hts
    cases hys : pctTokens rest2 with
    | none => simp [hys] at hts
    | some ys =>
      have hl := ih ys hys
      simp [hys] at hts
      simp [← hts]
      omega
  | case3 h1 h2 rest2 hno =>
    intro ts hts
    simp only [pctTokens, reduceIte] at hts
    cases hv1 : hexVal h1 with
    | none => simp [hv1] at hts
    | some a =>
      cases hv2 : hexVal h2 with
      | none => simp [hv1, hv2] at hts
      | some b => exact (hno a b hv1 hv2).elim
  | case4 rest hshape =>
    intro ts hts
    simp only [pctTokens, reduceIte] at hts
    match rest, hts with
    | [], hts => simp at hts
    | [x], hts => simp at hts
    | x :: y :: r, hts => exact (hshape x y r rfl).elim
  | case5 c rest hc ih =>
    intro ts hts
    rw [pctTokens.eq_def] at hts
    simp only [if_neg hc] at hts
    cases hys : pctTokens rest with
    | none => simp [hys] at hts
    | some ys =>
      have hl := ih ys hys
      simp [hys] at hts
      simp [← hts]
      omega

theorem utf8Decode_length : ∀ ts out, utf8Decode ts = some out → out.length ≤ ts.length := by
  intro ts
  induction ts using utf8Decode.induct with
  | case1 =>
    intro out h
    rw [utf8Decode] at h
    simp at h
    simp [← h]
  | case2 c rest ih =>
    intro out h
    rw [utf8Decode] at h
    cases hys : utf8Decode rest with
    | none => simp [hys] at h
    | some ys =>
      have hl := ih ys hys
      simp [hys] at h
      simp [← h]
      omega
  | case3 b0 rest hlen =>
    intro out h
    rw [utf8Decode] at h
    simp [hlen] at h
  | case4 b0 rest k hlen hcont =>
    intro out h
    rw [utf8Decode] at h
    simp [hlen, hcont] at h
  | case5 b0 rest k hlen cs hcont ih =>
    intro out h
    rw [utf8Decode] at h
    simp only [hlen, hcont] at h
    cases hys : utf8Decode (rest.drop k) with
    | none => simp [hys] at h
    | some ys =>
      have hl := ih ys hys
      have hd : (rest.drop k).length ≤ rest.length := by
        simp
      simp [hys] at h
      simp [← h]
      omega

theorem decodeList_length : ∀ l out, decodeList l = some out → out.length ≤ l.length := by
  intro l out h
  unfold decodeList at h
  cases hts : pctTokens l with
  | none => simp [hts] at h
  | some ts =>
    simp [hts] at h
    exact le_trans (utf8Decode_length ts out h) (pctTokens_length l ts hts)

theorem splitOnceChar_some : ∀ (l a b : List Char), splitOnceChar l = some (a, b) →
    l = a ++ '/' :: b ∧ '/' ∉ a ∧ '/' ∉ b := by
  intro l
  induction l with
  | nil => intro a b h; simp [splitOnceChar] at h
  | cons c rest ih =>
    intro a b h
    rw [splitOnceChar.eq_def] at h
    by_cases hc : c = '/'
    · simp only [hc, reduceIte] at h
      split at h
      · exact absurd h (by simp)
      · rename_i hnc
        simp at h
        simp at hnc
        obtain ⟨ha, hb⟩ := h
        subst ha
        subst hb
        exact ⟨by simp [hc], by simp, hnc⟩
    · simp only [if_neg hc] at h
      cases hs : splitOnceChar rest with
      | none => simp [hs] at h
      | some p =>
        obtain ⟨a1, b1⟩ := p
        simp [hs] at h
        obtain ⟨heq, hna, hnb⟩ := ih a1 b1 hs
        refine ⟨?_, ?_, ?_⟩
        · simp [← h.1, ← h.2, heq]
        · simp [← h.1]
          exact ⟨fun he => hc he.symm, hna⟩
        · simp [← h.2]
          exact hnb

theorem isDexShareName_data (name : String) (h : isDexShareName name = true) :
    name.data = "lp://".data ++ name.data.drop 5 := by
  unfold isDexShareName at h
  rw [List.isPrefixOf_iff_prefix] at h
  obtain ⟨t, ht⟩ := h
  have h5 : ("lp://".data).length = 5 := by decide
  conv =>
    lhs
    rw [← ht]
  rw [← ht, ← h5, List.drop_left]

theorem unzip_ok_length (name : String) (d1 d2 : String)
    (h : unzipDexShareName name = .ok (d1, d2)) :
    d1.data.length < name.data.length ∧ d2.data.length < name.data.length := by
  unfold unzipDexShareName at h
  by_cases hd : isDexShareName name
  · simp only [hd, reduceIte] at h
    cases hs : splitOnceChar (name.data.drop 5) with
    | none => simp [hs] at h
    | some p =>
      obtain ⟨a, b⟩ := p
      simp only [hs] at h
      obtain ⟨heq, hna, hnb⟩ := splitOnceChar_some _ a b hs
      cases hda : decodeURIComponent (String.mk a) with
      | none => simp [hda] at h
      | some e1 =>
        cases hdb : decodeURIComponent (String.mk b) with
        | none => simp [hda, hdb] at h
        | some e2 =>
          simp [hda, hdb] at h
          obtain ⟨h1, h2⟩ := h
          unfold decodeURIComponent at hda hdb
          cases hla : decodeList (String.mk a).data with
          | none => simp [hla] at hda
          | some o1 =>
            cases hlb : decodeList (String.mk b).data with
            | none => simp [hlb] at hdb
            | some o2 =>
              simp [hla] at hda
              simp [hlb] at hdb
              have l1 := decodeList_length _ _ hla
              have l2 := decodeList_length _ _ hlb
              have hn : name.data = "lp://".data ++ name.data.drop 5 :=
                isDexShareName_data name hd
              have hlen : name.data.length = 5 + (a.length + 1 + b.length) := by
                rw [hn, heq]
                simp
                omega
              rw [← h1, ← hda, ← h2, ← hdb]
              simp only [String.mk] at l1 l2 ⊢
              constructor
              · calc o1.length ≤ a.length := l1
                  _ < name.data.length := by omega
              · calc o2.length ≤ b.length := l2
                  _ < name.data.length := by omega
  · simp [hd] at h

/-- The structured `CurrencyObject` built by the converter: the branches the
code constructs are `Token: name` and `DexShare: [inner, inner]`. -/
inductive CurrencyObject where
  | token (name : String)
  | dexShare (c0 c1 : CurrencyObject)
deriving DecidableEq, Repr

/-- Source `converter.ts` lines 58-60. -/
def getBasicCurrencyObject (name : String) : CurrencyObject :=
  .token name

/-- Source `converter.ts` lines 62-75, the recursive `inner` of
`getDexShareCurrencyObject`: a dex-share name is unzipped (a failure of the
unzip or of percent-decoding propagates) and both halves are structured
recursively; any other name becomes a basic object. -/
def getDexShareCurrencyObject (name : String) : Except SdkErr CurrencyObject :=
  if isDexShareName name then
    match hu : unzipDexShareName name with
    | .ok (name1, name2) =>
      match getDexShareCurrencyObject name1, getDexShareCurrencyObject name2 with
      | .ok o1, .ok o2 => .ok (.dexShare o1 o2)
      | .error e, _ => .error e
      | .ok _, .error e => .error e
    | .error e => .error e
  else .ok (getBasicCurrencyObject name)
termination_by name.data.length
decreasing_by
  · exact (unzip_ok_length name name1 name2 hu).1
  · exact (unzip_ok_length name name1 name2 hu).2

/-- Source `converter.ts` lines 77-82, `getCurrencyObject(name)`. -/
def getCurrencyObject (name : String) : Except SdkErr CurrencyObject :=
  if isDexShareName name then getDexShareCurrencyObject name
  else .ok (getBasicCurrencyObject name)

/-- Source `converter.ts` lines 114-122, `forceToCurrencyId(api, target)`:
resolve the name, structure it, and hand the structured object to the
external `api.createType` (modelled as a function that may reject). Any
failure lands in the catch block of line 119-121, which throws
`ConvertToCurrencyIdFailed(origin)` — and `origin` there is not the
function's `target` parameter but the ambient JavaScript global `origin`
(typed `string` by the platform library), modelled by the explicit
`globalOrigin` parameter. -/
def forceToCurrencyId (globalOrigin : String) (api : CurrencyObject → Option CurrencyId)
    (target : MaybeCurrency) : Except SdkErr CurrencyId :=
  let attempt : Except SdkErr CurrencyId := do
    let name ← forceToCurrencyName target
    let obj ← getCurrencyObject name
    match api obj with
    | some cid => pure cid
    | none => .error .typeError
  match attempt with
  | .ok cid => .ok cid
  | .error _ => .error (.convertToCurrencyIdFailed (.str globalOrigin))

/-! ## Wallet engine (`packages/wallet/src/wallet.ts`)

The reactive pipelines are embedded by making the storage and subject
emissions explicit: an observable is modelled as the list of values it
emits over time, and the one-shot `get...` forms take the first value of the
corresponding continuous pipeline (`firstValueFrom`). -/

/-- The balance fields of the chain `AccountInfo.data` storage value read by
the native-token path (raw integers as returned by the ledger). -/
structure AccountData where
  free : Int
  miscFrozen : Int
  feeFrozen : Int
  reserved : Int
deriving DecidableEq, Repr

/-- The `OrmlAccountData` storage value read by the non-native path. -/
structure OrmlAccountData where
  free : Int
  frozen : Int
  reserved : Int
deriving DecidableEq, Repr

/-- The `BalanceData` snapshot emitted by `subscribeBalance`. -/
structure BalanceData where
  available : FixedPointNumber
  token : Token
  free : FixedPointNumber
  locked : FixedPointNumber
  reserved : FixedPointNumber
deriving DecidableEq, Repr

/-- Source `wallet.ts` (`subscribeBalance`) lines 205-214, `handleNative`:
`locked` is the larger of the two frozen amounts and
`available = (free - locked).max(ZERO)`. -/
def handleNative (data : AccountData) (token : Token) : BalanceData :=
  let free := FixedPointNumber.fromInner data.free token.decimals
  let locked := (FixedPointNumber.fromInner data.miscFrozen token.decimals).max
    (FixedPointNumber.fromInner data.feeFrozen token.decimals)
  let reserved := FixedPointNumber.fromInner data.reserved token.decimals
  let available := (free.sub locked).max FixedPointNumber.ZERO
  { available := available, token := token, free := free, locked := locked,
    reserved := reserved }

/-- Source `wallet.ts` (`subscribeBalance`) lines 216-223,
`handleNonNative`. -/
def handleNonNative (data : OrmlAccountData) (token : Token) : BalanceData :=
  let free := FixedPointNumber.fromInner data.free token.decimals
  let locked := FixedPointNumber.fromInner data.frozen token.decimals
  let reserved := FixedPointNumber.fromInner data.reserved token.decimals
  let available := (free.sub locked).max FixedPointNumber.ZERO
  { available := available, token := token, free := free, locked := locked,
    reserved := reserved }

/-- Source `wallet.ts` lines 199-237, `subscribeBalance(token, address)`:
after the token resolves, the pipeline maps every storage emission through
`handleNative` when `consts.nativeCurrency` equals the token's name and
through `handleNonNative` otherwise. The two storage observables are the
explicit emission lists. -/
def Wallet.subscribeBalance (nativeCurrency : String) (token : Token)
    (nativeEmissions : List AccountData) (ormlEmissions : List OrmlAccountData) :
    List BalanceData :=
  if nativeCurrency = token.name then
    nativeEmissions.map (fun d => handleNative d token)
  else
    ormlEmissions.map (fun d => handleNonNative d token)

/-- The token record kept in `tokens$`, a name-keyed mapping. -/
abbrev TokenRecord := List (String × Token)

/-- JavaScript object indexing `tokens[name]`. -/
def recordLookup (tokens : TokenRecord) (name : String) : Option Token :=
  (tokens.find? (fun p => p.1 == name)).map Prod.snd

/-- Outcome of a one-shot (`firstValueFrom`) query: a promise still pending
because the gated stream has emitted nothing yet, a resolved value, or a
synchronous failure. -/
inductive SnapshotOutcome (α : Type) where
  | pending
  | value (v : α)
  | failure (e : SdkErr)
deriving DecidableEq

/-- The filtering applied by `subscribeTokens(type)`: keep every entry when
no type is requested, otherwise only entries of that type. -/
def filterRecord (type : Option TokenType) (r : TokenRecord) : TokenRecord :=
  match type with
  | none => r
  | some ty => r.filter (fun p => decide (p.2.type = ty))

/-- Source `wallet.ts` lines 146-165, `subscribeTokens(type)`: the pipeline
filters `isReady$` until it turns true and then follows `tokens$`, mapping
each record through the type filter. The joint state of the two behavior
subjects over time is modelled as the emission list of
`(isReady$, tokens$)` pairs; the values the subscriber sees are those from
the first ready emission on. -/
def Wallet.subscribeTokens (type : Option TokenType)
    (emissions : List (Bool × TokenRecord)) : List TokenRecord :=
  (emissions.dropWhile (fun e => !e.1)).map (fun e => filterRecord type e.2)

/-- Source `wallet.ts` lines 167-169, `getTokens(type)`:
`firstValueFrom(subscribeTokens(type))` — the promise resolves with the
first emission of the continuous pipeline and stays pending while the
ready gate is closed; the function contains no throw of its own. -/
def Wallet.getTokens (type : Option TokenType)
    (emissions : List (Bool × TokenRecord)) : SnapshotOutcome TokenRecord :=
  match Wallet.subscribeTokens type emissions with
  | [] => .pending
  | r :: _ => .value r

/-- The `PresetTokens` record built by `getPresetTokens`. -/
structure PresetTokens where
  nativeToken : Option Token
  stableToken : Option Token
deriving DecidableEq, Repr

/-- The wallet state read synchronously by `getPresetTokens`: the current
`isReady$.value` and `tokens$.value`, the `consts.nativeCurrency` name, and
the five optional `api.consts.serpTreasury` currency-id constants in the
order the code tests them. -/
structure WalletState where
  isReadyValue : Bool
  tokens : TokenRecord
  nativeCurrency : String
  getSerpCurrencyId : Option CurrencyId
  getDinarCurrencyId : Option CurrencyId
  getHelpCurrencyId : Option CurrencyId
  setterCurrencyId : Option CurrencyId
  getSetUSDId : Option CurrencyId

/-- Source `wallet.ts` lines 368-418, `getPresetTokens()`: throws
`SDKNotReady('wallet')` while `isReady$.value` is false; otherwise reads
`tokens$.value` once, sets `nativeToken`, and lets each present treasury
constant overwrite `stableToken` in turn. -/
def Wallet.getPresetTokens (w : WalletState) : Except SdkErr PresetTokens :=
  if w.isReadyValue = false then .error (.sdkNotReady "wallet")
  else
    let step := fun (d : PresetTokens) (c : Option CurrencyId) =>
      match c with
      | some cid => { d with stableToken := recordLookup w.tokens (currencyIdName cid) }
      | none => d
    let d0 : PresetTokens :=
      { nativeToken := recordLookup w.tokens w.nativeCurrency, stableToken := none }
    .ok (step (step (step (step (step d0 w.getSerpCurrencyId) w.getDinarCurrencyId)
      w.getHelpCurrencyId) w.setterCurrencyId) w.getSetUSDId)

/-! ## Price subscription (`wallet.ts` lines 424-456) -/

/-- The two provider kinds of `price-provider/types.ts`; in the source this
is a numeric enum, so `MARKET` is `0` and falsy to `||`. -/
inductive PriceProviderType where
  | MARKET
  | ORACLE
deriving DecidableEq, Repr

/-- JavaScript `a || b` over an optional `PriceProviderType`: `undefined`
and `MARKET` (numeric value 0) are falsy. -/
def jsOrPriceType (x : Option PriceProviderType) (d : PriceProviderType) :
    PriceProviderType :=
  match x with
  | some v => if v = PriceProviderType.MARKET then d else v
  | none => d

/-- What `subscribePrice` returns, as a stream descriptor: the constant
stream `of(FN.ZERO)`, the composite dex-share pricing pipeline over the two
unzipped halves, or the chosen provider's `subscribe(token.name)` stream. -/
inductive PriceOutcome where
  | constStream (v : FixedPointNumber)
  | dexSharePrice (name0 name1 : String)
  | providerStream (provider : String) (name : String)
deriving DecidableEq, Repr

/-- Source `wallet.ts` lines 424-456, `subscribePrice(token, type?)`:
resolve the name, resolve the provider kind through the truthiness chain
`type || tokenPriceFetchSource?.[chain]?.[name] || MARKET`, pick the
configured provider of that kind, and return `of(FN.ZERO)` when none is
configured; otherwise price a dex-share by recursing into its halves and
any other token through the provider's stream keyed by the resolved
token's name. `providers` is the merged `priceProviders` map (provider
instances stand in as labels) and `fetchSource` the per-name source
configuration for the running chain. -/
def Wallet.subscribePrice (providers : PriceProviderType → Option String)
    (fetchSource : String → Option PriceProviderType)
    (type : Option PriceProviderType) (token : MaybeCurrency) :
    Except SdkErr PriceOutcome :=
  match forceToCurrencyName token with
  | .error e => .error e
  | .ok name =>
    let isDexShare := isDexShareName name
    let t := jsOrPriceType type (jsOrPriceType (fetchSource name) PriceProviderType.MARKET)
    let priceProvider :=
      if t = PriceProviderType.MARKET then providers PriceProviderType.MARKET
      else if t = PriceProviderType.ORACLE then providers PriceProviderType.ORACLE
      else none
    match priceProvider with
    | none => .ok (.constStream FixedPointNumber.ZERO)
    | some p =>
      if isDexShare then
        match unzipDexShareName name with
        | .ok (token0, token1) => .ok (.dexSharePrice token0 token1)
        | .error e => .error e
      else
        .ok (.providerStream p name)

/-- Token sequence produced by phase one on the encoding of one character:
an unreserved character stays plain, any other character becomes its
escaped UTF-8 bytes. Proof-support definition for the round-trip
theorems. -/
def encTokens (c : Char) : List (Char ⊕ Nat) :=
  if unreservedURI c then [.inl c] else (utf8Bytes c.toNat).map .inr

/-! ## Round-trip of the percent-encoding -/

theorem hexVal_hexDigit : ∀ k, k < 16 → hexVal (hexDigit k) = some k := by
  decide

theorem hexDigit_ne_slash : ∀ k, k < 16 → hexDigit k ≠ '/' := by
  decide

theorem hexDigit_ne_pct : ∀ k, k < 16 → hexDigit k ≠ '%' := by
  decide

theorem char_toNat_lt (c : Char) : c.toNat < 1114112 := by
  rcases c.valid with h | h
  · exact Nat.lt_trans h (by norm_num)
  · exact h.2

theorem utf8Bytes_lt (n : Nat) (hn : n < 1114112) : ∀ b ∈ utf8Bytes n, b < 256 := by
  intro b hb
  unfold utf8Bytes at hb
  split at hb
  · simp at hb
    omega
  · split at hb
    · simp at hb
      rcases hb with h | h <;> omega
    · split at hb
      · simp at hb
        rcases hb with h | h | h <;> omega
      · simp at hb
        rcases hb with h | h | h | h <;> omega

theorem pctTokens_pct (b : Nat) (hb : b < 256) (t : List Char) :
    pctTokens (pctEncodeByte b ++ t) = (pctTokens t).map (fun ts => .inr b :: ts) := by
  have h1 : b / 16 < 16 := by omega
  have h2 : b % 16 < 16 := by omega
  simp only [pctEncodeByte, List.cons_append, List.nil_append]
  simp only [pctTokens, reduceIte, hexVal_hexDigit _ h1, hexVal_hexDigit _ h2]
  rw [Nat.div_add_mod]

theorem pctTokens_bytes (bytes : List Nat) (hb : ∀ b ∈ bytes, b < 256) (t : List Char) :
    pctTokens (bytes.flatMap pctEncodeByte ++ t) =
      (pctTokens t).map (fun ts => bytes.map Sum.inr ++ ts) := by
  induction bytes with
  | nil => simp
  | cons b bs ih =>
    simp only [List.flatMap_cons, List.append_assoc]
    rw [pctTokens_pct b (hb b (by simp)) _]
    rw [ih (fun x hx => hb x (by simp [hx]))]
    rw [Option.map_map]
    rfl

theorem pctTokens_encodeChar (c : Char) (t : List Char) :
    pctTokens (encodeChar c ++ t) = (pctTokens t).map (fun ts => encTokens c ++ ts) := by
  by_cases hu : unreservedURI c
  · have hc : c ≠ '%' := by
      intro h
      rw [h] at hu
      exact absurd hu (by decide)
    simp only [encodeChar, if_pos hu, encTokens, List.cons_append, List.nil_append]
    rw [pctTokens.eq_def]
    simp only [if_neg hc]
  · simp only [encodeChar, if_neg hu, encTokens]
    exact pctTokens_bytes _ (utf8Bytes_lt _ (char_toNat_lt c)) t

theorem utf8Decode_encTokens (c : Char) (ts : List (Char ⊕ Nat)) :
    utf8Decode (encTokens c ++ ts) = (utf8Decode ts).map (fun l => c :: l) := by
  have hofn : Char.ofNat c.toNat = c := Char.ofNat_toNat c
  by_cases hu : unreservedURI c
  · simp only [encTokens, if_pos hu, List.cons_append, List.nil_append]
    rw [utf8Decode]
  · simp only [encTokens, if_neg hu]
    have hlt : c.toNat < 1114112 := char_toNat_lt c
    unfold utf8Bytes
    by_cases h1 : c.toNat < 128
    · simp only [if_pos h1, List.map_cons, List.map_nil, List.cons_append, List.nil_append]
      rw [utf8Decode]
      have e1 : utf8Len c.toNat = some 0 := by
        unfold utf8Len
        rw [if_pos h1]
      have e2 : utf8Scalar c.toNat [] = c.toNat := by
        unfold utf8Scalar utf8Base
        simp [if_pos h1]
      simp only [e1, contBytes, e2, hofn, List.drop_zero]
    · by_cases h2 : c.toNat < 2048
      · simp only [if_neg h1, if_pos h2, List.map_cons, List.map_nil, List.cons_append,
          List.nil_append]
        rw [utf8Decode]
        have e1 : utf8Len (192 + c.toNat / 64) = some 1 := by
          unfold utf8Len
          rw [if_neg (by omega), if_neg (by omega), if_pos (by omega)]
        have e2 : contBytes 1 (Sum.inr (128 + c.toNat % 64) :: ts) =
            some [128 + c.toNat % 64] := by
          simp only [contBytes]
          rw [if_pos (by omega)]
          simp [contBytes]
        have e3 : utf8Scalar (192 + c.toNat / 64) [128 + c.toNat % 64] = c.toNat := by
          unfold utf8Scalar utf8Base
          rw [if_neg (by omega), if_pos (by omega)]
          simp only [List.foldl_cons, List.foldl_nil]
          omega
        simp only [e1, e2, e3, hofn, List.drop_succ_cons, List.drop_zero]
      · by_cases h3 : c.toNat < 65536
        · simp only [if_neg h1, if_neg h2, if_pos h3, List.map_cons, List.map_nil,
            List.cons_append, List.nil_append]
          rw [utf8Decode]
          have e1 : utf8Len (224 + c.toNat / 4096) = some 2 := by
            unfold utf8Len
            rw [if_neg (by omega), if_neg (by omega), if_neg (by omega), if_pos (by omega)]
          have e2 : contBytes 2
              (Sum.inr (128 + c.toNat / 64 % 64) :: Sum.inr (128 + c.toNat % 64) :: ts) =
              some [128 + c.toNat / 64 % 64, 128 + c.toNat % 64] := by
            have hb1 : 128 ≤ 128 + c.toNat / 64 % 64 ∧ 128 + c.toNat / 64 % 64 < 192 := by
              omega
            have hb2 : 128 ≤ 128 + c.toNat % 64 ∧ 128 + c.toNat % 64 < 192 := by omega
            simp [contBytes, hb1, hb2]
          have e3 : utf8Scalar (224 + c.toNat / 4096)
              [128 + c.toNat / 64 % 64, 128 + c.toNat % 64] = c.toNat := by
            unfold utf8Scalar utf8Base
            rw [if_neg (by omega), if_neg (by omega), if_pos (by omega)]
            simp only [List.foldl_cons, List.foldl_nil]
            omega
          simp only [e1, e2, e3, hofn, List.drop_succ_cons, List.drop_zero]
        · simp only [if_neg h1, if_neg h2, if_neg h3, List.map_cons, List.map_nil,
            List.cons_append, List.nil_append]
          rw [utf8Decode]
          have e1 : utf8Len (240 + c.toNat / 262144) = some 3 := by
            unfold utf8Len
            rw [if_neg (by omega), if_neg (by omega), if_neg (by omega), if_neg (by omega),
              if_pos (by omega)]
          have e2 : contBytes 3
              (Sum.inr (128 + c.toNat / 4096 % 64) :: Sum.inr (128 + c.toNat / 64 % 64) ::
                Sum.inr (128 + c.toNat % 64) :: ts) =
              some [128 + c.toNat / 4096 % 64, 128 + c.toNat / 64 % 64, 128 + c.toNat % 64] := by
            have hb1 : 128 ≤ 128 + c.toNat / 4096 % 64 ∧ 128 + c.toNat / 4096 % 64 < 192 := by
              omega
            have hb2 : 128 ≤ 128 + c.toNat / 64 % 64 ∧ 128 + c.toNat / 64 % 64 < 192 := by
              omega
            have hb3 : 128 ≤ 128 + c.toNat % 64 ∧ 128 + c.toNat % 64 < 192 := by omega
            simp [contBytes, hb1, hb2, hb3]
          have e3 : utf8Scalar (240 + c.toNat / 262144)
              [128 + c.toNat / 4096 % 64, 128 + c.toNat / 64 % 64, 128 + c.toNat % 64] =
              c.toNat := by
            unfold utf8Scalar utf8Base
            rw [if_neg (by omega), if_neg (by omega), if_neg (by omega)]
            simp only [List.foldl_cons, List.foldl_nil]
            omega
          simp only [e1, e2, e3, hofn, List.drop_succ_cons, List.drop_zero]

theorem decodeList_encodeChar (c : Char) (t : List Char) :
    decodeList (encodeChar c ++ t) = (decodeList t).map (fun l => c :: l) := by
  unfold decodeList
  rw [pctTokens_encodeChar]
  cases h : pctTokens t with
  | none => simp
  | some ts => simp [utf8Decode_encTokens]

theorem decodeList_encode (s : List Char) :
    decodeList (s.flatMap encodeChar) = some s := by
  induction s with
  | nil => simp [decodeList, pctTokens, utf8Decode]
  | cons c rest ih =>
    rw [List.flatMap_cons, decodeList_encodeChar, ih]
    rfl

theorem encodeChar_no_slash (c : Char) : '/' ∉ encodeChar c := by
  unfold encodeChar
  by_cases hu : unreservedURI c
  · simp only [if_pos hu, List.mem_singleton]
    intro h
    rw [← h] at hu
    exact absurd hu (by decide)
  · simp only [if_neg hu, List.mem_flatMap]
    rintro ⟨b, hb, hmem⟩
    have hblt : b < 256 := utf8Bytes_lt _ (char_toNat_lt c) b hb
    simp only [pctEncodeByte, List.mem_cons, List.mem_singleton] at hmem
    rcases hmem with h | h | h
    · exact absurd h.symm (by decide)
    · exact hexDigit_ne_slash (b / 16) (by omega) h.symm
    · rcases h with h | h
      · exact hexDigit_ne_slash (b % 16) (by omega) h.symm
      · simp at h

theorem encode_no_slash (s : String) : '/' ∉ (encodeURIComponent s).data := by
  unfold encodeURIComponent
  simp only [List.mem_flatMap]
  rintro ⟨c, hc, hmem⟩
  exact encodeChar_no_slash c hmem

theorem splitOnce_exact (a b : List Char) (ha : '/' ∉ a) (hb : '/' ∉ b) :
    splitOnceChar (a ++ '/' :: b) = some (a, b) := by
  induction a with
  | nil =>
    have hcb : b.contains '/' = false := by simpa using hb
    simp [splitOnceChar, hcb, hb]
  | cons c cs ih =>
    have hc : c ≠ '/' := fun h => ha (by simp [h])
    have ha2 : '/' ∉ cs := fun h => ha (by simp [h])
    rw [List.cons_append, splitOnceChar.eq_def]
    simp only [if_neg hc]
    rw [ih ha2]

theorem decode_of_encode (s : String) :
    decodeURIComponent (String.mk (encodeURIComponent s).data) = some s := by
  unfold decodeURIComponent encodeURIComponent
  rw [decodeList_encode]
  rfl

/-- C1: for every pair of name strings, decoding the encoded dex-share name
returns the original pair — `unzipDexShareName (createDexShareName n0 n1) =
.ok (n0, n1)` — with no restriction on the names, so in particular also when
a name is itself a dex-share name (arbitrary nesting) or contains `/` or
other reserved characters, because each leg is percent-encoded (slash-free)
before joining under `lp://`. -/
theorem unzip_createDexShareName (n0 n1 : String) :
    unzipDexShareName (createDexShareName n0 n1) = .ok (n0, n1) := by
  have hdata : (createDexShareName n0 n1).data =
      "lp://".data ++ ((encodeURIComponent n0).data ++ '/' :: (encodeURIComponent n1).data) := by
    simp [createDexShareName, String.data_append]
  have hpre : isDexShareName (createDexShareName n0 n1) = true := by
    unfold isDexShareName
    rw [hdata, List.isPrefixOf_iff_prefix]
    exact List.prefix_append _ _
  have hdrop : (createDexShareName n0 n1).data.drop 5 =
      (encodeURIComponent n0).data ++ '/' :: (encodeURIComponent n1).data := by
    rw [hdata]
    have h5 : ("lp://".data).length = 5 := by decide
    rw [← h5, List.drop_left]
  unfold unzipDexShareName
  simp only [hpre, reduceIte, hdrop,
    splitOnce_exact _ _ (encode_no_slash n0) (encode_no_slash n1),
    decode_of_encode]

/-- C3: for every string without the exact single top-level `lp://A/B`
structure (no `lp://` prefix, or not exactly one further `/` outside the
percent-encoded segments), `unzipDexShareName` fails with
`NotDexShareName` carrying the input, and never returns a value. -/
theorem unzip_error_on_shapeless (name : String)
    (h : ∀ a b : List Char, '/' ∉ a → '/' ∉ b →
      name.data ≠ "lp://".data ++ a ++ '/' :: b) :
    unzipDexShareName name = .error (.notDexShareName name) := by
  unfold unzipDexShareName
  by_cases hd : isDexShareName name
  · simp only [hd, reduceIte]
    cases hs : splitOnceChar (name.data.drop 5) with
    | none => rfl
    | some p =>
      obtain ⟨a, b⟩ := p
      obtain ⟨heq, hna, hnb⟩ := splitOnceChar_some _ a b hs
      have hn : name.data = "lp://".data ++ a ++ '/' :: b := by
        rw [List.append_assoc, ← heq]
        exact isDexShareName_data name hd
      exact absurd hn (h a b hna hnb)
  · simp only [hd]
    rfl

theorem shapeless_of_count (name : String) (h : name.data.count '/' ≠ 3) :
    ∀ a b : List Char, '/' ∉ a → '/' ∉ b →
      name.data ≠ "lp://".data ++ a ++ '/' :: b := by
  intro a b ha hb heq
  apply h
  rw [heq]
  have hca : a.count '/' = 0 := List.count_eq_zero.mpr ha
  have hcb : b.count '/' = 0 := List.count_eq_zero.mpr hb
  have hlp : ("lp://".data).count '/' = 2 := by decide
  simp [List.count_append, hca, hcb, hlp]

/-- Witness for C3 at the input `lp://A/B/C` of the claim: the extra
top-level slash makes the decoder fail with `NotDexShareName`. -/
theorem unzip_error_on_shapeless_witness :
    unzipDexShareName "lp://A/B/C" = .error (.notDexShareName "lp://A/B/C") :=
  unzip_error_on_shapeless "lp://A/B/C" (shapeless_of_count _ (by decide))

/-- C9: the `Token` constructor defaults `decimals` to 18 whenever both
`configs.decimals` and `configs.decimal` are falsy (absent or `0`):
the default is taken with the truthiness chain
`configs?.decimals || configs?.decimal || 18`, so an explicitly
constructed `decimals = 0` yields 18, not 0. -/
theorem token_decimals_default (name : String) (configs : Option Configs)
    (h1 : (configs.getD {}).decimals = none ∨ (configs.getD {}).decimals = some 0)
    (h2 : (configs.getD {}).decimal = none ∨ (configs.getD {}).decimal = some 0) :
    (Token.create name configs).decimals = 18 := by
  unfold Token.create jsOrNat
  rcases h1 with h1 | h1 <;> rcases h2 with h2 | h2 <;> simp [h1, h2]

/-- Witness for C9 at a token explicitly constructed with `decimals = 0`. -/
theorem token_decimals_default_witness :
    (Token.create "X" (some { decimals := some 0 })).decimals = 18 :=
  token_decimals_default "X" (some { decimals := some 0 }) (Or.inr rfl) (Or.inl rfl)

theorem sortTokenNameLe_total (a b : String) : sortTokenNameLe a b ∨ sortTokenNameLe b a := by
  unfold sortTokenNameLe sortTokenByName
  by_cases h1 : a < b
  · left
    simp [h1]
  · by_cases h2 : b < a
    · right
      simp [h2]
    · left
      simp [h1, h2]

theorem jsObjectKeys_pair_ne (n1 n2 : String) (h : n1 ≠ n2) :
    jsObjectKeys [n1, n2] = [n1, n2] := by
  have h2 : ¬n2 = n1 := fun he => h he.symm
  simp [jsObjectKeys, h2]

theorem jsObjectKeys_pair_eq (n : String) : jsObjectKeys [n, n] = [n] := by
  simp [jsObjectKeys]

theorem lastWithName_pair_fst (t1 t2 : Token) (h : t1.name ≠ t2.name) :
    lastWithName [t1, t2] t1.name = some t1 := by
  unfold lastWithName
  have h1 : (t1.name == t1.name) = true := by simp
  have h2 : (t2.name == t1.name) = false := by
    simp
    exact fun he => h he.symm
  simp [List.filter, h1, h2]

theorem lastWithName_pair_snd (t1 t2 : Token) (h : t1.name ≠ t2.name) :
    lastWithName [t1, t2] t2.name = some t2 := by
  unfold lastWithName
  have h1 : (t1.name == t2.name) = false := by
    simp
    exact h
  have h2 : (t2.name == t2.name) = true := by simp
  simp [List.filter, h1, h2]

theorem sort_pair (t1 t2 : Token) (h : t1.name ≠ t2.name) :
    Token.sort [t1, t2] =
      if sortTokenNameLe t1.name t2.name then [t1, t2] else [t2, t1] := by
  unfold Token.sort
  simp only [List.map_cons, List.map_nil]
  rw [jsObjectKeys_pair_ne _ _ h]
  simp only [List.insertionSort, List.orderedInsert]
  by_cases hr : sortTokenNameLe t1.name t2.name
  · rw [if_pos hr, if_pos hr]
    simp [List.filterMap, lastWithName_pair_fst t1 t2 h, lastWithName_pair_snd t1 t2 h]
  · rw [if_neg hr, if_neg hr]
    simp [List.filterMap, lastWithName_pair_fst t1 t2 h, lastWithName_pair_snd t1 t2 h]

theorem sort_pair_same (t1 t2 : Token) (h : t1.name = t2.name) :
    Token.sort [t1, t2] = [t2] := by
  unfold Token.sort
  simp only [List.map_cons, List.map_nil]
  rw [h, jsObjectKeys_pair_eq]
  simp only [List.insertionSort, List.orderedInsert]
  have h1 : (t1.name == t2.name) = true := by simp [h]
  have h2 : (t2.name == t2.name) = true := by simp
  simp [List.filterMap, lastWithName, List.filter, h1, h2]

/-- C10: `Token.fromTokens` is total only on pairs with distinct names.
When the names are equal, `Token.sort` deduplicates the pair into the
single-element list keeping the second token, the destructured second
element is `undefined`, and `fromTokens` throws (a `TypeError`) rather than
returning a dex-share token; with distinct names it always returns a
token. -/
theorem fromTokens_totality (t1 t2 : Token) :
    (t1.name = t2.name →
      Token.sort [t1, t2] = [t2] ∧ Token.fromTokens t1 t2 = .error .typeError) ∧
    (t1.name ≠ t2.name → ∃ t, Token.fromTokens t1 t2 = .ok t) := by
  constructor
  · intro h
    refine ⟨sort_pair_same t1 t2 h, ?_⟩
    unfold Token.fromTokens
    rw [sort_pair_same t1 t2 h]
  · intro h
    unfold Token.fromTokens
    rw [sort_pair t1 t2 h]
    by_cases hr : sortTokenNameLe t1.name t2.name
    · rw [if_pos hr]
      exact ⟨_, rfl⟩
    · rw [if_neg hr]
      exact ⟨_, rfl⟩

/-- Witness for C10: a same-named pair produces no token, a
distinct-named pair always produces one. -/
theorem fromTokens_totality_witness :
    (Token.fromTokens (Token.create "X" none) (Token.create "X" (some { decimals := some 7 })) =
      .error .typeError) ∧
    ∃ t, Token.fromTokens (Token.create "A" none) (Token.create "B" none) = .ok t :=
  ⟨((fromTokens_totality (Token.create "X" none)
      (Token.create "X" (some { decimals := some 7 }))).1 rfl).2,
    (fromTokens_totality (Token.create "A" none) (Token.create "B" none)).2 (by decide)⟩

/-- C2: `Token.fromTokens tokenA tokenB` sorts the pair by the canonical
name ordering and returns a token whose name is `createDexShareName` of the
sorted names, whose type is `DEX_SHARE`, and whose `decimals` and
existential deposit are the first sorted (lower-ordered) token's. The
hypotheses `decimals ≠ 0` hold for every constructor-built token, since the
constructor's truthiness default never produces 0 (theorem
`token_create_decimals_ne_zero` below). -/
theorem fromTokens_composition (t1 t2 : Token) (hne : t1.name ≠ t2.name)
    (hd1 : t1.decimals ≠ 0) (hd2 : t2.decimals ≠ 0) :
    ∃ a b, Token.sort [t1, t2] = [a, b] ∧
      sortTokenNameLe a.name b.name ∧
      ((a, b) = (t1, t2) ∨ (a, b) = (t2, t1)) ∧
      ∃ t, Token.fromTokens t1 t2 = .ok t ∧
        t.name = createDexShareName a.name b.name ∧
        t.type = TokenType.DEX_SHARE ∧
        t.decimals = a.decimals ∧
        t.ed = a.ed := by
  have hfields : ∀ x y : Token, x.decimals ≠ 0 →
      (Token.create (createDexShareName x.name y.name)
        (some { decimals := some x.decimals, type := some TokenType.DEX_SHARE,
                ed := some x.ed })).name = createDexShareName x.name y.name ∧
      (Token.create (createDexShareName x.name y.name)
        (some { decimals := some x.decimals, type := some TokenType.DEX_SHARE,
                ed := some x.ed })).type = TokenType.DEX_SHARE ∧
      (Token.create (createDexShareName x.name y.name)
        (some { decimals := some x.decimals, type := some TokenType.DEX_SHARE,
                ed := some x.ed })).decimals = x.decimals ∧
      (Token.create (createDexShareName x.name y.name)
        (some { decimals := some x.decimals, type := some TokenType.DEX_SHARE,
                ed := some x.ed })).ed = x.ed := by
    intro x y hx
    unfold Token.create jsOrNat
    refine ⟨rfl, rfl, ?_, rfl⟩
    simp [hx]
  by_cases hr : sortTokenNameLe t1.name t2.name
  · refine ⟨t1, t2, by rw [sort_pair t1 t2 hne, if_pos hr], hr, Or.inl rfl, ?_⟩
    refine ⟨_, ?_, hfields t1 t2 hd1⟩
    unfold Token.fromTokens
    rw [sort_pair t1 t2 hne, if_pos hr]
  · have hr2 : sortTokenNameLe t2.name t1.name :=
      (sortTokenNameLe_total t1.name t2.name).resolve_left hr
    refine ⟨t2, t1, by rw [sort_pair t1 t2 hne, if_neg hr], hr2, Or.inr rfl, ?_⟩
    refine ⟨_, ?_, hfields t2 t1 hd2⟩
    unfold Token.fromTokens
    rw [sort_pair t1 t2 hne, if_neg hr]

/-- Every constructor-built token has nonzero decimals: the truthiness
default chain ends in 18, so the `decimals ≠ 0` hypotheses of the C2
theorem hold for all tokens the library can build. -/
theorem token_create_decimals_ne_zero (name : String) (configs : Option Configs) :
    (Token.create name configs).decimals ≠ 0 := by
  unfold Token.create jsOrNat
  cases h1 : (configs.getD {}).decimals with
  | none =>
    cases h2 : (configs.getD {}).decimal with
    | none => simp [h1, h2]
    | some d =>
      by_cases hd : d = 0 <;> simp [h1, h2, hd]
  | some d =>
    by_cases hd : d = 0
    · cases h2 : (configs.getD {}).decimal with
      | none => simp [h1, h2, hd]
      | some e =>
        by_cases he : e = 0 <;> simp [h1, h2, hd, he]
    · simp [h1, hd]

/-- Witness for C2 at the spec's own fixture, SETM with 18 decimals and
SERP with 12: under the modelled byte-wise collation SERP sorts first, so
the composite adopts SERP's decimals and existential deposit. -/
theorem fromTokens_composition_witness :
    ∃ a b, Token.sort [Token.create "SETM" (some { decimals := some 18 }),
        Token.create "SERP" (some { decimals := some 12 })] = [a, b] ∧
      sortTokenNameLe a.name b.name ∧
      ((a, b) = (Token.create "SETM" (some { decimals := some 18 }),
          Token.create "SERP" (some { decimals := some 12 })) ∨
        (a, b) = (Token.create "SERP" (some { decimals := some 12 }),
          Token.create "SETM" (some { decimals := some 18 }))) ∧
      ∃ t, Token.fromTokens (Token.create "SETM" (some { decimals := some 18 }))
          (Token.create "SERP" (some { decimals := some 12 })) = .ok t ∧
        t.name = createDexShareName a.name b.name ∧
        t.type = TokenType.DEX_SHARE ∧
        t.decimals = a.decimals ∧
        t.ed = a.ed :=
  fromTokens_composition (Token.create "SETM" (some { decimals := some 18 }))
    (Token.create "SERP" (some { decimals := some 12 })) (by decide) (by decide) (by decide)

theorem sortTokenNameLe_iff (a b : String) : sortTokenNameLe a b ↔ a ≤ b := by
  unfold sortTokenNameLe sortTokenByName
  by_cases h1 : a < b
  · simp [h1, le_of_lt h1]
  · by_cases h2 : b < a
    · rw [if_neg h1, if_pos h2]
      exact ⟨fun hle => absurd hle (by omega), fun hab => absurd hab (not_le.mpr h2)⟩
    · have heq : a = b := le_antisymm (not_lt.mp h2) (not_lt.mp h1)
      rw [if_neg h1, if_neg h2]
      simp [heq]

instance : IsTotal String sortTokenNameLe := ⟨sortTokenNameLe_total⟩

instance : IsTrans String sortTokenNameLe :=
  ⟨fun a b c hab hbc => (sortTokenNameLe_iff a c).mpr
    (le_trans ((sortTokenNameLe_iff a b).mp hab) ((sortTokenNameLe_iff b c).mp hbc))⟩

theorem jsObjectKeys_aux (names : List String) : ∀ acc : List String,
    (acc ++ names).Nodup →
    names.foldl (fun acc n => if acc.contains n then acc else acc ++ [n]) acc =
      acc ++ names := by
  induction names with
  | nil => intro acc h; simp
  | cons n ns ih =>
    intro acc h
    have hnacc : n ∉ acc := by
      intro hmem
      rw [List.nodup_append] at h
      exact h.2.2 hmem (by simp)
    have hc : acc.contains n = false := by simpa using hnacc
    simp only [List.foldl_cons, hc, Bool.false_eq_true, reduceIte]
    have h2 : ((acc ++ [n]) ++ ns).Nodup := by
      rw [List.append_assoc]
      simpa using h
    rw [ih (acc ++ [n]) h2, List.append_assoc]
    rfl

theorem jsObjectKeys_nodup_id (names : List String) (h : names.Nodup) :
    jsObjectKeys names = names := by
  have := jsObjectKeys_aux names [] (by simpa using h)
  simpa [jsObjectKeys] using this

theorem lastWithName_mem (tokens : List Token) (n : String)
    (h : n ∈ tokens.map Token.name) :
    ∃ t, lastWithName tokens n = some t ∧ t.name = n := by
  obtain ⟨t0, ht0, hn0⟩ := List.mem_map.mp h
  have hmem : t0 ∈ tokens.filter (fun t => t.name == n) := by
    rw [List.mem_filter]
    exact ⟨ht0, by simp [hn0]⟩
  have hne : tokens.filter (fun t => t.name == n) ≠ [] := by
    intro he
    rw [he] at hmem
    simp at hmem
  cases hl : (tokens.filter (fun t => t.name == n)).getLast? with
  | none => exact absurd (List.getLast?_eq_none_iff.mp hl) hne
  | some u =>
    have hu : u ∈ tokens.filter (fun t => t.name == n) := by
      obtain ⟨ys, hy⟩ := List.getLast?_eq_some_iff.mp hl
      simp [hy]
    have hun := (List.mem_filter.mp hu).2
    refine ⟨u, ?_, by simpa using hun⟩
    unfold lastWithName
    rw [hl]

theorem filterMap_map_eq {α β : Type} (keys : List α) (f : α → Option β) (g : β → α)
    (h : ∀ n ∈ keys, ∃ t, f n = some t ∧ g t = n) : (keys.filterMap f).map g = keys := by
  induction keys with
  | nil => rfl
  | cons k ks ih =>
    obtain ⟨t, hf, hg⟩ := h k (by simp)
    rw [List.filterMap_cons, hf]
    simp only [List.map_cons, hg]
    rw [ih (fun n hn => h n (by simp [hn]))]

theorem sort_map_name (tokens : List Token) (h : (tokens.map Token.name).Nodup) :
    (Token.sort tokens).map Token.name = Token.sortTokenNames (tokens.map Token.name) := by
  unfold Token.sort Token.sortTokenNames
  rw [jsObjectKeys_nodup_id _ h]
  apply filterMap_map_eq
  intro n hn
  have hn2 : n ∈ tokens.map Token.name :=
    (List.perm_insertionSort sortTokenNameLe _).subset hn
  exact lastWithName_mem tokens n hn2

theorem namePairs_pointwise (cs : List MaybeCurrency)
    (pairs : List (String × MaybeCurrency)) (h : namePairs cs = .ok pairs) :
    ∀ p ∈ pairs, forceToCurrencyName p.2 = .ok p.1 := by
  induction cs generalizing pairs with
  | nil =>
    simp [namePairs] at h
    subst h
    intro p hp
    simp at hp
  | cons c cs ih =>
    unfold namePairs at h
    cases hf : forceToCurrencyName c with
    | error e => rw [hf] at h; simp at h
    | ok n =>
      rw [hf] at h
      cases hp : namePairs cs with
      | error e => rw [hp] at h; simp at h
      | ok ps =>
        rw [hp] at h
        simp at h
        intro p hp2
        rw [← h] at hp2
        rcases List.mem_cons.mp hp2 with he | hm
        · rw [he]
          exact hf
        · exact ih ps hp p hm

theorem lastWithKey_mem (pairs : List (String × MaybeCurrency)) (n : String)
    (h : n ∈ pairs.map Prod.fst) :
    ∃ c, lastWithKey pairs n = some c ∧ (n, c) ∈ pairs := by
  obtain ⟨p0, hp0, hn0⟩ := List.mem_map.mp h
  have hmem : p0 ∈ pairs.filter (fun p => p.1 == n) := by
    rw [List.mem_filter]
    exact ⟨hp0, by simp [hn0]⟩
  have hne : pairs.filter (fun p => p.1 == n) ≠ [] := by
    intro he
    rw [he] at hmem
    simp at hmem
  cases hl : (pairs.filter (fun p => p.1 == n)).getLast? with
  | none => exact absurd (List.getLast?_eq_none_iff.mp hl) hne
  | some u =>
    have hu : u ∈ pairs.filter (fun p => p.1 == n) := by
      obtain ⟨ys, hy⟩ := List.getLast?_eq_some_iff.mp hl
      simp [hy]
    obtain ⟨humem, hufst⟩ := List.mem_filter.mp hu
    have hufst2 : u.1 = n := by simpa using hufst
    refine ⟨u.2, ?_, ?_⟩
    · unfold lastWithKey
      rw [hl]
      rfl
    · rw [← hufst2]
      exact humem

theorem filterMap_map_ok (keys : List String) (f : String → Option MaybeCurrency)
    (h : ∀ n ∈ keys, ∃ c, f n = some c ∧ forceToCurrencyName c = .ok n) :
    (keys.filterMap f).map forceToCurrencyName = keys.map Except.ok := by
  induction keys with
  | nil => rfl
  | cons k ks ih =>
    obtain ⟨c, hf, hfc⟩ := h k (by simp)
    rw [List.filterMap_cons, hf]
    simp only [List.map_cons, hfc]
    rw [ih (fun n hn => h n (by simp [hn]))]

/-- C5: sorting is consistent across representations. `sortTokenNames` is
idempotent; for token lists with pairwise-distinct underlying names,
`Token.sort` produces the same relative name order as `sortTokenNames` on
the name strings; and for currency lists whose name-resolution (the
`forceToCurrencyName` keying loop, `namePairs`) succeeds with
pairwise-distinct names, `sortCurrencies` returns the currencies in exactly
the `sortTokenNames` order of those names. -/
theorem sort_consistency :
    (∀ names : List String,
      Token.sortTokenNames (Token.sortTokenNames names) = Token.sortTokenNames names) ∧
    (∀ tokens : List Token, (tokens.map Token.name).Nodup →
      (Token.sort tokens).map Token.name = Token.sortTokenNames (tokens.map Token.name)) ∧
    (∀ (cs : List MaybeCurrency) (pairs : List (String × MaybeCurrency)),
      namePairs cs = .ok pairs → (pairs.map Prod.fst).Nodup →
      ∃ l, Token.sortCurrencies cs = .ok l ∧
        l.map forceToCurrencyName =
          (Token.sortTokenNames (pairs.map Prod.fst)).map Except.ok) := by
  refine ⟨?_, sort_map_name, ?_⟩
  · intro names
    unfold Token.sortTokenNames
    exact (List.sorted_insertionSort sortTokenNameLe names).insertionSort_eq
  · intro cs pairs hp hnd
    unfold Token.sortCurrencies
    rw [hp]
    refine ⟨_, rfl, ?_⟩
    unfold Token.sortTokenNames
    rw [jsObjectKeys_nodup_id _ hnd]
    apply filterMap_map_ok
    intro n hn
    have hn2 : n ∈ pairs.map Prod.fst :=
      (List.perm_insertionSort sortTokenNameLe _).subset hn
    obtain ⟨c, hc, hcm⟩ := lastWithKey_mem pairs n hn2
    exact ⟨c, hc, namePairs_pointwise cs pairs hp (n, c) hcm⟩

/-- Witness for C5 at a concrete fixture of two names in reversed order,
as names, tokens and currency identities. -/
theorem sort_consistency_witness :
    Token.sortTokenNames (Token.sortTokenNames ["B", "A"]) =
      Token.sortTokenNames ["B", "A"] ∧
    (Token.sort [Token.create "B" none, Token.create "A" none]).map Token.name =
      Token.sortTokenNames
        ([Token.create "B" none, Token.create "A" none].map Token.name) ∧
    ∃ l, Token.sortCurrencies [MaybeCurrency.str "B", MaybeCurrency.str "A"] = .ok l ∧
      l.map forceToCurrencyName =
        (Token.sortTokenNames
          ([("B", MaybeCurrency.str "B"), ("A", MaybeCurrency.str "A")].map Prod.fst)).map
            Except.ok :=
  ⟨sort_consistency.1 ["B", "A"],
    sort_consistency.2.1 [Token.create "B" none, Token.create "A" none] (by decide),
    sort_consistency.2.2 [MaybeCurrency.str "B", MaybeCurrency.str "A"]
      [("B", MaybeCurrency.str "B"), ("A", MaybeCurrency.str "A")] rfl (by decide)⟩

/-- C4: evaluation at a failing input. `forceToCurrencyName` does carry its
own `target` (here the null-ish value), but `forceToCurrencyId`'s catch
block (`converter.ts` line 120) throws `ConvertToCurrencyIdFailed(origin)`
where `origin` is the ambient JavaScript global (here the browser value
`http://localhost`), not the `target` parameter: the error produced for the
target `{ Token: 'X' }` carries a value different from that target,
refuting the claim for `forceToCurrencyId`. -/
theorem forceToCurrencyId_global_origin :
    forceToCurrencyId "http://localhost" (fun _ => none)
      (.currencyId (.token "X")) =
      .error (.convertToCurrencyIdFailed (.str "http://localhost")) ∧
    MaybeCurrency.str "http://localhost" ≠ MaybeCurrency.currencyId (.token "X") ∧
    forceToCurrencyName MaybeCurrency.nullVal =
      .error (.convertToCurrencyNameFailed MaybeCurrency.nullVal) :=
  ⟨rfl, by decide, rfl⟩

/-- C6 counterexample: with the ready gate still closed (`isReady$.value`
false and no ready emission yet), `getPresetTokens` does fail with
`SDKNotReady`, but the snapshot form `getTokens` — which awaits the
gated continuous pipeline — stays pending instead of failing with
`SDKNotReady`, refuting the claim that the immediate-failure behaviour
extends to `getTokens`. -/
theorem getTokens_pending_counterexample :
    Wallet.getPresetTokens
      ⟨false, [("SETM", Token.create "SETM" none)], "SETM", none, none, none, none, none⟩ =
      .error (.sdkNotReady "wallet") ∧
    Wallet.getTokens none [(false, [("SETM", Token.create "SETM" none)])] =
      SnapshotOutcome.pending ∧
    (SnapshotOutcome.pending : SnapshotOutcome TokenRecord) ≠
      .failure (.sdkNotReady "wallet") :=
  ⟨rfl, rfl, by decide⟩

/-- C6 (amended): before the ready gate is met, the snapshot query
`getPresetTokens` fails immediately with `SDKNotReady`, while `getTokens` —
a one-shot await of the continuous `subscribeTokens` pipeline — blocks
(stays pending) until the first ready emission, resolves with the first
post-gate token record, and never fails with `SDKNotReady` at all. -/
theorem ready_gate_behaviour :
    (∀ w : WalletState, w.isReadyValue = false →
      Wallet.getPresetTokens w = .error (.sdkNotReady "wallet")) ∧
    (∀ (type : Option TokenType) (emissions : List (Bool × TokenRecord)),
      (∀ e ∈ emissions, e.1 = false) →
      Wallet.getTokens type emissions = .pending) ∧
    (∀ (type : Option TokenType) (pre post : List (Bool × TokenRecord)) (r : TokenRecord),
      (∀ e ∈ pre, e.1 = false) →
      Wallet.getTokens type (pre ++ (true, r) :: post) = .value (filterRecord type r)) ∧
    (∀ (type : Option TokenType) (emissions : List (Bool × TokenRecord)) (e : SdkErr),
      Wallet.getTokens type emissions ≠ .failure e) := by
  have hdrop : ∀ (pre : List (Bool × TokenRecord)), (∀ e ∈ pre, e.1 = false) →
      ∀ tail : List (Bool × TokenRecord),
      (pre ++ tail).dropWhile (fun e => !e.1) = tail.dropWhile (fun e => !e.1) := by
    intro pre hpre
    induction pre with
    | nil => intro tail; rfl
    | cons x xs ih =>
      intro tail
      have hx : x.1 = false := hpre x (by simp)
      rw [List.cons_append, List.dropWhile_cons]
      simp only [hx]
      exact ih (fun e he => hpre e (by simp [he])) tail
  refine ⟨?_, ?_, ?_, ?_⟩
  · intro w h
    unfold Wallet.getPresetTokens
    rw [h, if_pos rfl]
  · intro type emissions h
    unfold Wallet.getTokens Wallet.subscribeTokens
    have := hdrop emissions h []
    rw [List.append_nil] at this
    rw [this]
    rfl
  · intro type pre post r h
    unfold Wallet.getTokens Wallet.subscribeTokens
    rw [hdrop pre h ((true, r) :: post)]
    rfl
  · intro type emissions e
    unfold Wallet.getTokens
    cases h : Wallet.subscribeTokens type emissions <;> simp

/-- Witness for the amended C6 at concrete emission lists: not-ready gives
`SDKNotReady` for `getPresetTokens` and pending for `getTokens`; the first
ready emission resolves `getTokens`. -/
theorem ready_gate_behaviour_witness :
    Wallet.getPresetTokens ⟨false, [], "SETM", none, none, none, none, none⟩ =
      .error (.sdkNotReady "wallet") ∧
    Wallet.getTokens none [(false, [])] = .pending ∧
    Wallet.getTokens none [(false, []), (true, [("A", Token.create "A" none)])] =
      .value (filterRecord none [("A", Token.create "A" none)]) ∧
    Wallet.getTokens none [(false, [])] ≠ .failure (.sdkNotReady "wallet") :=
  ⟨ready_gate_behaviour.1 _ rfl,
    ready_gate_behaviour.2.1 none [(false, [])] (by decide),
    ready_gate_behaviour.2.2.1 none [(false, [])] [] [("A", Token.create "A" none)]
      (by decide),
    ready_gate_behaviour.2.2.2 none [(false, [])] (.sdkNotReady "wallet")⟩

theorem max_zero_not_neg (x : FixedPointNumber) :
    (x.max FixedPointNumber.ZERO).isNeg = false := by
  unfold FixedPointNumber.max FixedPointNumber.ltb FixedPointNumber.ZERO
    FixedPointNumber.alignTo FixedPointNumber.isNeg
  simp only [Nat.max_zero, Nat.sub_self, pow_zero, mul_one, zero_mul]
  by_cases h : x.mantissa < 0 <;> simp [h]

/-- C7: every `BalanceData` snapshot emitted by `subscribeBalance`
satisfies `available = (free - locked).max ZERO` for its own `free` and
`locked` fields — on both the native path (where `locked` is the larger
frozen amount) and the non-native path — and `available` is never
negative, even when `locked` exceeds `free`. -/
theorem balance_available_clamped (nativeCurrency : String) (token : Token)
    (nativeEmissions : List AccountData) (ormlEmissions : List OrmlAccountData)
    (b : BalanceData)
    (hb : b ∈ Wallet.subscribeBalance nativeCurrency token nativeEmissions ormlEmissions) :
    b.available = (b.free.sub b.locked).max FixedPointNumber.ZERO ∧
      b.available.isNeg = false := by
  unfold Wallet.subscribeBalance at hb
  by_cases hn : nativeCurrency = token.name
  · rw [if_pos hn] at hb
    obtain ⟨d, hd, hbd⟩ := List.mem_map.mp hb
    rw [← hbd]
    exact ⟨rfl, max_zero_not_neg _⟩
  · rw [if_neg hn] at hb
    obtain ⟨d, hd, hbd⟩ := List.mem_map.mp hb
    rw [← hbd]
    exact ⟨rfl, max_zero_not_neg _⟩

/-- Witness for C7 at a native-path emission whose locked amount exceeds
its free amount. -/
theorem balance_available_clamped_witness :
    (handleNative ⟨10, 20, 5, 0⟩ (Token.create "SETM" none)).available =
      ((handleNative ⟨10, 20, 5, 0⟩ (Token.create "SETM" none)).free.sub
        (handleNative ⟨10, 20, 5, 0⟩ (Token.create "SETM" none)).locked).max
          FixedPointNumber.ZERO ∧
    (handleNative ⟨10, 20, 5, 0⟩ (Token.create "SETM" none)).available.isNeg = false :=
  balance_available_clamped "SETM" (Token.create "SETM" none) [⟨10, 20, 5, 0⟩] []
    (handleNative ⟨10, 20, 5, 0⟩ (Token.create "SETM" none))
    (by simp [Wallet.subscribeBalance, Token.create])

/-- C8: whenever no `PriceProvider` is configured for the resolved
price-source kind, `subscribePrice` returns the constant Decimal-zero
stream `of(FN.ZERO)` rather than failing — for dex-share and plain tokens
alike, since the provider check precedes the dex-share branch. -/
theorem price_zero_when_no_provider (providers : PriceProviderType → Option String)
    (fetchSource : String → Option PriceProviderType)
    (type : Option PriceProviderType) (token : MaybeCurrency) (name : String)
    (hname : forceToCurrencyName token = .ok name)
    (hprov : providers (jsOrPriceType type
      (jsOrPriceType (fetchSource name) PriceProviderType.MARKET)) = none) :
    Wallet.subscribePrice providers fetchSource type token =
      .ok (.constStream FixedPointNumber.ZERO) := by
  unfold Wallet.subscribePrice
  rw [hname]
  cases ht : jsOrPriceType type (jsOrPriceType (fetchSource name) PriceProviderType.MARKET) with
  | MARKET =>
    rw [ht] at hprov
    simp [ht, hprov]
  | ORACLE =>
    rw [ht] at hprov
    simp [ht, hprov]

/-- Witness for C8: a wallet constructed with every provider kind left
unconfigured prices any token as the zero stream. -/
theorem price_zero_when_no_provider_witness :
    Wallet.subscribePrice (fun _ => none) (fun _ => none) none (.str "SETM") =
      .ok (.constStream FixedPointNumber.ZERO) :=
  price_zero_when_no_provider (fun _ => none) (fun _ => none) none (.str "SETM") "SETM"
    rfl rfl
